import Mathlib

/-!
Shallow embedding of the video metadata store of `src/main.py`.

Python strings are modelled as `List Char` (lower-casing is per character, as
for the ASCII data the program handles); Python integers as `Int` (arbitrary
precision).  The value produced by `json.load` is modelled by `JsonVal`; the
backing file by `FileState`: missing, present but unparsable/unreadable, or
parsed to a `JsonVal`.  `json.dump` writes text that `json.load` reads back as
the dumped value, so `_save` sets the file to the parsed encoding.  All
operations are total Lean functions; the `try/except` in `_load` is modelled
with `Option`.  The dataclass `Video` does not enforce its annotations at
runtime; the embedding fixes the fields at their annotated types, so decoding
requires the annotated JSON shape for each field.
-/

/-- A Python string, as its list of characters. -/
abbrev PyStr := List Char

/-- Python `s.lower()` (per-character, matching ASCII data). -/
def strLower (s : PyStr) : PyStr := s.map Char.toLower

/-- Python `q in s` for strings: `q` occurs contiguously inside `s`. -/
def strContains (s q : PyStr) : Bool := decide (q <:+: s)

/-- The `Video` dataclass of `src/main.py` (lines 34-49). -/
structure Video where
  id : Int
  title : PyStr
  description : PyStr
  uploader : PyStr
  tags : List PyStr
  uploaded_at : PyStr
deriving DecidableEq

/-- A JSON value as returned by `json.load` (floats do not occur in data this
program writes, and no claim depends on them, so numbers are integers). -/
inductive JsonVal where
  | jnull
  | jbool (b : Bool)
  | jint (n : Int)
  | jstr (s : PyStr)
  | jarr (elems : List JsonVal)
  | jobj (fields : List (PyStr × JsonVal))

/-- The backing file: absent, present but failing `open`/`json.load`, or
parsed to a JSON value. -/
inductive FileState where
  | missing
  | invalid
  | parsed (j : JsonVal)

def keyId : PyStr := ['i', 'd']

def keyTitle : PyStr := ['t', 'i', 't', 'l', 'e']

def keyDescription : PyStr := ['d', 'e', 's', 'c', 'r', 'i', 'p', 't', 'i', 'o', 'n']

def keyUploader : PyStr := ['u', 'p', 'l', 'o', 'a', 'd', 'e', 'r']

def keyTags : PyStr := ['t', 'a', 'g', 's']

def keyUploadedAt : PyStr := ['u', 'p', 'l', 'o', 'a', 'd', 'e', 'd', '_', 'a', 't']

/-- The keyword arguments `Video.__init__` accepts. -/
def videoKeys : List PyStr := [keyId, keyTitle, keyDescription, keyUploader, keyTags, keyUploadedAt]

/-- Key lookup in a decoded JSON object.  `json.load` builds a `dict`, where a
repeated key keeps its last value, so the last binding wins. -/
def lookupKey (k : PyStr) : List (PyStr × JsonVal) → Option JsonVal
  | [] => none
  | kv :: rest =>
    match lookupKey k rest with
    | some v => some v
    | none => if kv.1 = k then some kv.2 else none

def asStr : JsonVal → Option PyStr
  | .jstr s => some s
  | _ => none

def asInt : JsonVal → Option Int
  | .jint n => some n
  | _ => none

/-- A JSON array of strings, element by element. -/
def asStrs : List JsonVal → Option (List PyStr)
  | [] => some []
  | x :: xs =>
    match asStr x, asStrs xs with
    | some s, some ss => some (s :: ss)
    | _, _ => none

def asStrList : JsonVal → Option (List PyStr)
  | .jarr xs => asStrs xs
  | _ => none

/-- `Video(**v)` for one decoded JSON object.  It raises (`none`) when the
value is not an object, when a key is not a `Video` field name, or when one of
the required fields `id`, `title`, `description`, `uploader` is missing or not
of its annotated shape.  A missing `tags` defaults to `[]`, a missing
`uploaded_at` to the timestamp `now` generated at construction time. -/
def decodeVideo (now : PyStr) : JsonVal → Option Video
  | .jobj fields =>
    if fields.all (fun kv => decide (kv.1 ∈ videoKeys)) then
      match lookupKey keyId fields, lookupKey keyTitle fields,
            lookupKey keyDescription fields, lookupKey keyUploader fields with
      | some ji, some jt, some jd, some ju =>
        match asInt ji, asStr jt, asStr jd, asStr ju,
              (match lookupKey keyTags fields with
               | none => some []
               | some jv => asStrList jv),
              (match lookupKey keyUploadedAt fields with
               | none => some now
               | some jv => asStr jv) with
        | some i, some t, some d, some u, some tg, some ua =>
          some { id := i, title := t, description := d, uploader := u,
                 tags := tg, uploaded_at := ua }
        | _, _, _, _, _, _ => none
      | _, _, _, _ => none
    else none
  | _ => none

/-- The comprehension `[Video(**v) for v in data]` over the array elements:
the first failing element aborts the whole load. -/
def decodeList (now : PyStr) : List JsonVal → Option (List Video)
  | [] => some []
  | x :: xs =>
    match decodeVideo now x, decodeList now xs with
    | some v, some vs => some (v :: vs)
    | _, _ => none

/-- `[Video(**v) for v in data]`: iterating a non-array JSON value either
raises at once or yields non-mapping elements, so every non-array fails. -/
def decodeVideos (now : PyStr) : JsonVal → Option (List Video)
  | .jarr xs => decodeList now xs
  | _ => none

/-- `VideoStore._load` (lines 68-81): a missing file, a parse failure or any
decode failure yields the empty list; otherwise the decoded records. -/
def loadVideos (now : PyStr) : FileState → List Video
  | .missing => []
  | .invalid => []
  | .parsed j => (decodeVideos now j).getD []

/-- `VideoStore`: the in-memory record list plus the modelled backing file. -/
structure VideoStore where
  videos : List Video
  file : FileState

/-- `VideoStore.__init__`: load from the backing file, which is only read. -/
def mkStore (fs : FileState) (now : PyStr) : VideoStore :=
  { videos := loadVideos now fs, file := fs }

/-- `dataclasses.asdict`: the six fields under their attribute names. -/
def encodeVideo (v : Video) : JsonVal :=
  .jobj [(keyId, .jint v.id), (keyTitle, .jstr v.title),
         (keyDescription, .jstr v.description), (keyUploader, .jstr v.uploader),
         (keyTags, .jarr (v.tags.map JsonVal.jstr)), (keyUploadedAt, .jstr v.uploaded_at)]

def encodeVideos (vs : List Video) : JsonVal := .jarr (vs.map encodeVideo)

/-- `VideoStore._save` (lines 83-86): full-file overwrite with the serialized
list; the written text parses back to exactly the dumped value. -/
def saveFile (vs : List Video) : FileState := .parsed (encodeVideos vs)

/-- Python `max(xs, default=d)`. -/
def pyMax (d : Int) : List Int → Int
  | [] => d
  | x :: xs => xs.foldl max x

/-- `VideoStore.next_id` (lines 88-90): `max((v.id for v in videos), default=0) + 1`. -/
def VideoStore.next_id (s : VideoStore) : Int :=
  pyMax 0 (s.videos.map (fun v => v.id)) + 1

/-- Python `tags or []` on an `Optional[List[str]]`: `None` and the empty
list are falsy. -/
def tagsOrEmpty : Option (List PyStr) → List PyStr
  | none => []
  | some ts => if ts.isEmpty then [] else ts

/-- `VideoStore.add` (lines 92-97): build the record with a fresh id and the
creation timestamp `now`, append it, save, and return it. -/
def VideoStore.add (s : VideoStore) (title description uploader : PyStr)
    (tags : Option (List PyStr)) (now : PyStr) : VideoStore × Video :=
  let vid : Video :=
    { id := s.next_id, title := title, description := description,
      uploader := uploader, tags := tagsOrEmpty tags, uploaded_at := now }
  let videos := s.videos ++ [vid]
  ({ videos := videos, file := saveFile videos }, vid)

/-- `VideoStore.list` (lines 99-101): the current records.  The Python copy
protects store internals; Lean lists are immutable, so the copy is the list. -/
def VideoStore.list (s : VideoStore) : List Video := s.videos

/-- `VideoStore.get` (lines 103-108): first record with the given id. -/
def VideoStore.get (s : VideoStore) (video_id : Int) : Option Video :=
  s.videos.find? (fun v => decide (v.id = video_id))

/-- `VideoStore.delete` (lines 110-117): keep the records with a different
id; save only when the length changed; return whether it changed. -/
def VideoStore.delete (s : VideoStore) (video_id : Int) : VideoStore × Bool :=
  let kept := s.videos.filter (fun v => decide (v.id ≠ video_id))
  let changed : Bool := decide (kept.length ≠ s.videos.length)
  ({ videos := kept, file := if changed then saveFile kept else s.file }, changed)

/-- One record's test in `VideoStore.search`, applied to the lowered query. -/
def matchesQuery (q : PyStr) (v : Video) : Bool :=
  strContains (strLower v.title) q || strContains (strLower v.description) q ||
    v.tags.any (fun t => strContains (strLower t) q)

/-- `VideoStore.search` (lines 119-123): lower the query once and filter.  It
returns only a result list: no new state, so it cannot modify the store or
the backing file. -/
def VideoStore.search (s : VideoStore) (query : PyStr) : List Video :=
  s.videos.filter (matchesQuery (strLower query))

/-- Modelled from the spec's words for `search`, to compare with the code: a
record matches when the lower-cased query is a substring of the lower-cased
title, or of the lower-cased description, or of at least one lower-cased
tag. -/
def SpecMatch (query : PyStr) (v : Video) : Prop :=
  strLower query <:+: strLower v.title ∨ strLower query <:+: strLower v.description ∨
    ∃ t ∈ v.tags, strLower query <:+: strLower t

/-- A fixed record used as concrete input by witness theorems. -/
def demoVideo (i : Int) : Video :=
  { id := i, title := ['a'], description := [], uploader := ['u'],
    tags := [['p']], uploaded_at := ['z'] }

/-- A fixed two-record store used as concrete input by witness theorems. -/
def demoStore : VideoStore :=
  { videos := [demoVideo 1, demoVideo 5], file := .missing }

theorem le_foldl_max (x : Int) (xs : List Int) : x ≤ xs.foldl max x := by
  induction xs generalizing x with
  | nil => exact le_refl x
  | cons y ys ih => exact le_trans (le_max_left x y) (ih (max x y))

theorem mem_le_foldl_max (x : Int) (xs : List Int) : ∀ y ∈ xs, y ≤ xs.foldl max x := by
  induction xs generalizing x with
  | nil => intro y hy; cases hy
  | cons z zs ih =>
    intro y hy
    cases hy with
    | head => exact le_trans (le_max_right x z) (le_foldl_max _ _)
    | tail _ h => exact ih (max x z) y h

theorem foldl_max_mem (x : Int) (xs : List Int) :
    xs.foldl max x = x ∨ xs.foldl max x ∈ xs := by
  induction xs generalizing x with
  | nil => exact Or.inl rfl
  | cons y ys ih =>
    rw [List.foldl_cons]
    rcases ih (max x y) with h | h
    · rw [h]
      rcases max_choice x y with h1 | h1
      · exact Or.inl h1
      · rw [h1]; exact Or.inr (List.mem_cons_self y ys)
    · exact Or.inr (List.mem_cons_of_mem y h)

/-- On a nonempty list, `pyMax` is a member and an upper bound. -/
theorem pyMax_spec (d : Int) (l : List Int) (h : l ≠ []) :
    pyMax d l ∈ l ∧ ∀ y ∈ l, y ≤ pyMax d l := by
  cases l with
  | nil => exact absurd rfl h
  | cons x xs =>
    refine ⟨?_, ?_⟩
    · show xs.foldl max x ∈ x :: xs
      rcases foldl_max_mem x xs with h1 | h1
      · rw [h1]; exact List.mem_cons_self x xs
      · exact List.mem_cons_of_mem x h1
    · intro y hy
      cases hy with
      | head => exact le_foldl_max x xs
      | tail _ hmem => exact mem_le_foldl_max x xs y hmem

/-- Every member is at most `pyMax`. -/
theorem le_pyMax (d : Int) (l : List Int) : ∀ y ∈ l, y ≤ pyMax d l := by
  intro y hy
  exact (pyMax_spec d l (List.ne_nil_of_mem hy)).2 y hy

/-- `pyMax` of a nonempty list is its unique maximal member. -/
theorem pyMax_eq_of (d a : Int) (l : List Int) (ha : a ∈ l) (hub : ∀ y ∈ l, y ≤ a) :
    pyMax d l = a := by
  obtain ⟨hmem, hle⟩ := pyMax_spec d l (List.ne_nil_of_mem ha)
  exact le_antisymm (hub _ hmem) (hle a ha)

/-- C1: `next_id()` returns one more than the maximum id among the records
currently present, and returns 1 when the store holds no records. -/
theorem next_id_spec (s : VideoStore) :
    (s.videos = [] → s.next_id = 1) ∧
    (s.videos ≠ [] →
      (∃ v ∈ s.videos, s.next_id = v.id + 1) ∧ ∀ v ∈ s.videos, v.id < s.next_id) := by
  constructor
  · intro h
    simp [VideoStore.next_id, h, pyMax]
  · intro h
    have hm : s.videos.map (fun v => v.id) ≠ [] := by
      simpa using h
    obtain ⟨hmem, hle⟩ := pyMax_spec 0 _ hm
    constructor
    · obtain ⟨v, hv, hid⟩ := List.mem_map.mp hmem
      refine ⟨v, hv, ?_⟩
      rw [VideoStore.next_id, hid]
    · intro v hv
      have h1 := hle v.id (List.mem_map.mpr ⟨v, hv, rfl⟩)
      rw [VideoStore.next_id]
      omega

/-- C1 witness at the concrete two-record store. -/
theorem next_id_spec_witness :
    demoStore.videos ≠ [] ∧
      ((∃ v ∈ demoStore.videos, demoStore.next_id = v.id + 1) ∧
        ∀ v ∈ demoStore.videos, v.id < demoStore.next_id) :=
  ⟨by decide, (next_id_spec demoStore).2 (by decide)⟩

/-- C2 counterexample: in one session starting from an empty store, the first
add assigns id 1, `delete 1` (the highest id) succeeds, and the next add
assigns id 1 again — not strictly greater than every id assigned before, so
deletion of the highest id does lower the next assigned id. -/
theorem delete_max_reuses_id :
    ((mkStore .missing ['z']).add ['a'] [] ['u'] none ['z']).2.id = 1 ∧
    ((((mkStore .missing ['z']).add ['a'] [] ['u'] none ['z']).1.delete 1).2 = true) ∧
    ((((mkStore .missing ['z']).add ['a'] [] ['u'] none ['z']).1.delete 1).1.add
        ['b'] [] ['u'] none ['z']).2.id = 1 ∧
    ¬ (((mkStore .missing ['z']).add ['a'] [] ['u'] none ['z']).2.id <
        ((((mkStore .missing ['z']).add ['a'] [] ['u'] none ['z']).1.delete 1).1.add
          ['b'] [] ['u'] none ['z']).2.id) := by
  refine ⟨rfl, rfl, rfl, ?_⟩
  decide

/-- C2 amended: deleting an id strictly below some present id leaves
`next_id` unchanged; only deleting the maximal id lowers it (to one more
than the maximum of the remaining ids), so a deleted maximal id can be
reassigned by the next add. -/
theorem next_id_delete_of_lt (s : VideoStore) (i : Int)
    (h : ∃ v ∈ s.videos, i < v.id) :
    (s.delete i).1.next_id = s.next_id := by
  obtain ⟨v0, hv0, hlt⟩ := h
  have hids : s.videos.map (fun v => v.id) ≠ [] :=
    List.ne_nil_of_mem (List.mem_map.mpr ⟨v0, hv0, rfl⟩)
  obtain ⟨hmem, hub⟩ := pyMax_spec 0 _ hids
  obtain ⟨vm, hvm, hvmid⟩ := List.mem_map.mp hmem
  have hiM : i < pyMax 0 (s.videos.map (fun v => v.id)) :=
    lt_of_lt_of_le hlt (hub v0.id (List.mem_map.mpr ⟨v0, hv0, rfl⟩))
  have hkeep : vm ∈ s.videos.filter (fun v => decide (v.id ≠ i)) := by
    rw [List.mem_filter]
    refine ⟨hvm, ?_⟩
    simp only [decide_eq_true_eq]
    omega
  have heq : pyMax 0 ((s.videos.filter (fun v => decide (v.id ≠ i))).map (fun v => v.id)) =
      pyMax 0 (s.videos.map (fun v => v.id)) := by
    apply pyMax_eq_of
    · rw [← hvmid]
      exact List.mem_map.mpr ⟨vm, hkeep, rfl⟩
    · intro y hy
      obtain ⟨w, hw, hwid⟩ := List.mem_map.mp hy
      have hw2 : w ∈ s.videos := (List.mem_filter.mp hw).1
      rw [← hwid]
      exact hub w.id (List.mem_map.mpr ⟨w, hw2, rfl⟩)
  show pyMax 0 (((s.videos.filter (fun v => decide (v.id ≠ i)))).map (fun v => v.id)) + 1 = _
  rw [heq]
  rfl

/-- C2 amended witness: deleting id 1 from the store with ids 1 and 5 leaves
`next_id` at 6. -/
theorem next_id_delete_of_lt_witness :
    (∃ v ∈ demoStore.videos, (1 : Int) < v.id) ∧
      (demoStore.delete 1).1.next_id = demoStore.next_id :=
  ⟨by decide, next_id_delete_of_lt demoStore 1 (by decide)⟩

/-- C3: `search` returns exactly the records whose lower-cased title,
description or some tag has the lower-cased query as a substring; the result
is a sublist of the stored records, hence in original insertion order, and
the empty query returns every record.  `search` is a pure function of the
state, so it modifies neither the store nor the backing file. -/
theorem search_spec (s : VideoStore) (query : PyStr) :
    (∀ v, v ∈ s.search query ↔ v ∈ s.videos ∧ SpecMatch query v) ∧
    List.Sublist (s.search query) s.videos ∧ s.search [] = s.videos := by
  refine ⟨?_, List.filter_sublist s.videos, ?_⟩
  · intro v
    simp [VideoStore.search, List.mem_filter, matchesQuery, strContains, SpecMatch]
    tauto
  · show s.videos.filter (matchesQuery (strLower [])) = s.videos
    apply List.filter_eq_self.mpr
    intro v hv
    simp [matchesQuery, strContains, strLower, List.nil_infix]

/-- C4: deleting a present id returns true, removes every record carrying
that id, and keeps the remaining records in their original relative order. -/
theorem delete_present (s : VideoStore) (i : Int) (h : ∃ v ∈ s.videos, v.id = i) :
    (s.delete i).2 = true ∧
    (∀ v ∈ (s.delete i).1.videos, v.id ≠ i) ∧
    List.Sublist (s.delete i).1.videos s.videos ∧
    ∀ v ∈ s.videos, v.id ≠ i → v ∈ (s.delete i).1.videos := by
  have hlt : (s.videos.filter (fun v => decide (v.id ≠ i))).length < s.videos.length := by
    apply List.length_filter_lt_length_iff_exists.mpr
    obtain ⟨v, hv, hvid⟩ := h
    exact ⟨v, hv, by simp [hvid]⟩
  refine ⟨?_, ?_, List.filter_sublist s.videos, ?_⟩
  · show decide ((s.videos.filter (fun v => decide (v.id ≠ i))).length ≠ s.videos.length) = true
    simp only [decide_eq_true_eq]
    omega
  · intro v hv
    have := (List.mem_filter.mp hv).2
    simpa using this
  · intro v hv hne
    exact List.mem_filter.mpr ⟨hv, by simpa using hne⟩

/-- C4 witness: deleting id 5 from the store with ids 1 and 5. -/
theorem delete_present_witness :
    (∃ v ∈ demoStore.videos, v.id = 5) ∧
      ((demoStore.delete 5).2 = true ∧
        (∀ v ∈ (demoStore.delete 5).1.videos, v.id ≠ 5) ∧
        List.Sublist (demoStore.delete 5).1.videos demoStore.videos ∧
        ∀ v ∈ demoStore.videos, v.id ≠ 5 → v ∈ (demoStore.delete 5).1.videos) :=
  ⟨by decide, delete_present demoStore 5 (by decide)⟩

/-- C5: deleting an absent id returns false and leaves the whole state,
the in-memory records and the backing file alike, unchanged. -/
theorem delete_absent (s : VideoStore) (i : Int) (h : ∀ v ∈ s.videos, v.id ≠ i) :
    (s.delete i).2 = false ∧ (s.delete i).1 = s := by
  have hfil : s.videos.filter (fun v => decide (v.id ≠ i)) = s.videos := by
    apply List.filter_eq_self.mpr
    intro v hv
    simpa using h v hv
  constructor
  · show decide ((s.videos.filter (fun v => decide (v.id ≠ i))).length ≠ s.videos.length) = false
    rw [hfil]
    simp
  · show VideoStore.mk (s.videos.filter (fun v => decide (v.id ≠ i)))
        (if decide ((s.videos.filter (fun v => decide (v.id ≠ i))).length ≠ s.videos.length)
          then saveFile (s.videos.filter (fun v => decide (v.id ≠ i))) else s.file) = s
    rw [hfil]
    simp

/-- C5 witness: deleting the absent id 9 from the two-record store. -/
theorem delete_absent_witness :
    (∀ v ∈ demoStore.videos, v.id ≠ 9) ∧
      ((demoStore.delete 9).2 = false ∧ (demoStore.delete 9).1 = demoStore) :=
  ⟨by decide, delete_absent demoStore 9 (by decide)⟩

/-- C6: construction against a missing file, an unparsable file, or a parsed
value that fails to decode yields an empty store; construction is a total
function, so no error escapes and no partial data is retained. -/
theorem load_failure_empty (now : PyStr) :
    (mkStore .missing now).videos = [] ∧ (mkStore .invalid now).videos = [] ∧
    ∀ j, decodeVideos now j = none → (mkStore (.parsed j) now).videos = [] := by
  refine ⟨rfl, rfl, ?_⟩
  intro j hj
  simp [mkStore, loadVideos, hj]

/-- C6 witness: a file whose JSON is `null` does not decode and loads empty. -/
theorem load_failure_empty_witness :
    decodeVideos ['z'] .jnull = none ∧ (mkStore (.parsed .jnull) ['z']).videos = [] :=
  ⟨rfl, (load_failure_empty ['z']).2.2 .jnull rfl⟩

theorem asStrs_map_jstr (ts : List PyStr) : asStrs (ts.map JsonVal.jstr) = some ts := by
  induction ts with
  | nil => rfl
  | cons t ts ih => simp [asStrs, asStr, ih]

theorem decodeVideo_encodeVideo (now : PyStr) (v : Video) :
    decodeVideo now (encodeVideo v) = some v := by
  simp +decide [decodeVideo, encodeVideo, lookupKey, videoKeys, keyId, keyTitle,
    keyDescription, keyUploader, keyTags, keyUploadedAt, asInt, asStr, asStrList,
    asStrs_map_jstr]

theorem decodeList_encode (now : PyStr) (vs : List Video) :
    decodeList now (vs.map encodeVideo) = some vs := by
  induction vs with
  | nil => rfl
  | cons v vs ih => simp [decodeList, decodeVideo_encodeVideo, ih]

/-- Reconstructing a store from a just-saved file restores the saved list. -/
theorem reload_save (vs : List Video) (now : PyStr) :
    (mkStore (saveFile vs) now).videos = vs := by
  simp [mkStore, saveFile, loadVideos, decodeVideos, encodeVideos, decodeList_encode]

/-- C7: after any `add`, a fresh store constructed against the same backing
file lists exactly the records of the store that wrote it — identical field
values in the original insertion order. -/
theorem add_reload_roundtrip (s : VideoStore) (title description uploader : PyStr)
    (tags : Option (List PyStr)) (now now2 : PyStr) :
    (mkStore (s.add title description uploader tags now).1.file now2).videos =
      (s.add title description uploader tags now).1.videos :=
  reload_save ((s.add title description uploader tags now).1.videos) now2

/-- C8: when all record ids are pairwise distinct, they remain pairwise
distinct after any `add` and after any `delete`. -/
theorem ids_nodup_preserved (s : VideoStore) (title description uploader : PyStr)
    (tags : Option (List PyStr)) (now : PyStr) (i : Int)
    (h : (s.videos.map (fun v => v.id)).Nodup) :
    ((s.add title description uploader tags now).1.videos.map (fun v => v.id)).Nodup ∧
    ((s.delete i).1.videos.map (fun v => v.id)).Nodup := by
  constructor
  · show ((s.videos ++
        [({ id := s.next_id, title := title, description := description, uploader := uploader,
            tags := tagsOrEmpty tags, uploaded_at := now } : Video)]).map (fun v => v.id)).Nodup
    rw [List.map_append]
    simp only [List.map_cons, List.map_nil]
    rw [List.nodup_append]
    refine ⟨h, List.nodup_singleton _, ?_⟩
    intro a ha hb
    rw [List.mem_singleton] at hb
    subst hb
    have h1 := le_pyMax 0 (s.videos.map (fun v => v.id)) _ ha
    have h2 : s.next_id = pyMax 0 (s.videos.map (fun v => v.id)) + 1 := rfl
    omega
  · have hsub : List.Sublist
        ((s.videos.filter (fun v => decide (v.id ≠ i))).map (fun v => v.id))
        (s.videos.map (fun v => v.id)) :=
      (List.filter_sublist s.videos).map _
    exact h.sublist hsub

/-- C8 witness: distinct ids stay distinct through a concrete add and a
concrete delete on the two-record store. -/
theorem ids_nodup_preserved_witness :
    (demoStore.videos.map (fun v => v.id)).Nodup ∧
      (((demoStore.add ['t'] [] ['u'] none ['z']).1.videos.map (fun v => v.id)).Nodup ∧
        ((demoStore.delete 1).1.videos.map (fun v => v.id)).Nodup) :=
  ⟨by decide, ids_nodup_preserved demoStore ['t'] [] ['u'] none ['z'] 1 (by decide)⟩

/-- C9: `add` with `tags=None` (the default for an omitted argument) stores
and returns a record whose tags are the empty list. -/
theorem add_none_tags (s : VideoStore) (title description uploader now : PyStr) :
    (s.add title description uploader none now).2.tags = [] := rfl

/-- C10: a loaded object carrying the four required keys in any order and
lacking the `tags` and `uploaded_at` keys decodes — the store is not
discarded — with tags defaulted to the empty list and the timestamp
defaulted to the one generated at construction time. -/
theorem decode_defaults (now : PyStr) (fields : List (PyStr × JsonVal)) (i : Int)
    (t d u : PyStr)
    (hall : fields.all (fun kv => decide (kv.1 ∈ videoKeys)) = true)
    (hid : lookupKey keyId fields = some (.jint i))
    (ht : lookupKey keyTitle fields = some (.jstr t))
    (hd : lookupKey keyDescription fields = some (.jstr d))
    (hu : lookupKey keyUploader fields = some (.jstr u))
    (htags : lookupKey keyTags fields = none)
    (hua : lookupKey keyUploadedAt fields = none) :
    decodeVideo now (.jobj fields) =
      some { id := i, title := t, description := d, uploader := u,
             tags := [], uploaded_at := now } ∧
    (mkStore (.parsed (.jarr [.jobj fields])) now).videos =
      [{ id := i, title := t, description := d, uploader := u,
         tags := [], uploaded_at := now }] := by
  have h1 : decodeVideo now (.jobj fields) =
      some { id := i, title := t, description := d, uploader := u,
             tags := [], uploaded_at := now } := by
    simp [decodeVideo, hall, hid, ht, hd, hu, htags, hua, asInt, asStr]
  exact ⟨h1, by simp [mkStore, loadVideos, decodeVideos, decodeList, h1]⟩

/-- C10 witness: a concrete object with exactly the four required keys. -/
theorem decode_defaults_witness :
    lookupKey keyTags [(keyId, JsonVal.jint 3), (keyTitle, JsonVal.jstr ['t']),
        (keyDescription, JsonVal.jstr []), (keyUploader, JsonVal.jstr ['u'])] = none ∧
      (decodeVideo ['n'] (.jobj [(keyId, JsonVal.jint 3), (keyTitle, JsonVal.jstr ['t']),
          (keyDescription, JsonVal.jstr []), (keyUploader, JsonVal.jstr ['u'])]) =
        some { id := 3, title := ['t'], description := [], uploader := ['u'],
               tags := [], uploaded_at := ['n'] } ∧
      (mkStore (.parsed (.jarr [.jobj [(keyId, JsonVal.jint 3), (keyTitle, JsonVal.jstr ['t']),
          (keyDescription, JsonVal.jstr []), (keyUploader, JsonVal.jstr ['u'])]])) ['n']).videos =
        [{ id := 3, title := ['t'], description := [], uploader := ['u'],
           tags := [], uploaded_at := ['n'] }]) :=
  ⟨rfl, decode_defaults ['n']
    [(keyId, JsonVal.jint 3), (keyTitle, JsonVal.jstr ['t']),
     (keyDescription, JsonVal.jstr []), (keyUploader, JsonVal.jstr ['u'])]
    3 ['t'] [] ['u'] rfl rfl rfl rfl rfl rfl rfl⟩
